import Mathlib

/-!
Shallow embedding of the io-uring-zcrx crate (src/lib.rs, src/rqueue.rs,
src/sys.rs).

The machine integers of the source are modelled as `Nat` with explicit
reduction modulo `2 ^ 32` (for `u32`) and `2 ^ 64` (for `u64`/`usize`)
exactly where the source's arithmetic wraps.  Shared memory (the head
word, the tail word and the rqe array that both the process and the
kernel see) is modelled by the `Inner` structure, whose fields stand for
the values currently stored at the locations the Rust `Inner` points to;
methods that mutate through those pointers return an updated `Inner`.
The `RefillQueue` cursor carries its locally cached `head` and `tail`
together with the shared state, mirroring the Rust struct's fields.
Fallible operations return the updated state paired with
`Option PushError`, mirroring `&mut self` + `Result<(), PushError>`.
-/

namespace Zcrx

/-- Modulus of `u32` arithmetic. -/
def U32 : Nat := 2 ^ 32

/-- Modulus of `u64` / `usize` arithmetic (64-bit platform). -/
def U64 : Nat := 2 ^ 64

/-- Bitwise complement on a `u64` value. -/
def u64not (x : Nat) : Nat := x ^^^ (U64 - 1)

/-! ### src/sys.rs -/

/-- `sys::IORING_ZCRX_AREA_SHIFT`: the bit from which the area id is
encoded into offsets. -/
def IORING_ZCRX_AREA_SHIFT : Nat := 48

/-- `sys::IORING_ZCRX_AREA_MASK = !((1 << IORING_ZCRX_AREA_SHIFT) - 1)`. -/
def IORING_ZCRX_AREA_MASK : Nat := u64not ((1 <<< IORING_ZCRX_AREA_SHIFT) - 1)

/-- `sys::io_uring_zcrx_rqe`: a refill-queue entry (`off: u64`,
`len: u32`, 4 bytes padding). -/
structure io_uring_zcrx_rqe where
  off : Nat
  len : Nat
  pad : Nat
deriving DecidableEq, Repr

/-- `repr(C)` size of `io_uring_zcrx_rqe`: 8 + 4 + 4 bytes. -/
def rqeSize : Nat := 16

/-! ### src/rqueue.rs -/

/-- `rqueue::Entry` is a transparent wrapper around `io_uring_zcrx_rqe`. -/
abbrev Entry := io_uring_zcrx_rqe

/-- `rqueue::PushError`: the refill queue is full. -/
inductive PushError where
  | mk
deriving DecidableEq, Repr

/-- `rqueue::Inner`.  The Rust struct stores pointers into the shared
metadata region; here `head`, `tail` and `rqes` are the values currently
stored at those shared locations. -/
structure Inner where
  head : Nat
  tail : Nat
  ring_entries : Nat
  ring_mask : Nat
  rqes : List Entry
deriving DecidableEq, Repr

/-- `Inner::new`: records the ring geometry, computing
`ring_mask = ring_entries - 1` (the caller guarantees `ring_entries` is a
power of two).  The pointer arguments of the source are replaced by the
current contents of the shared words they point to. -/
def Inner.new (ring_entries : Nat) (head tail : Nat) (rqes : List Entry) :
    Inner :=
  { head := head
    tail := tail
    ring_entries := ring_entries
    ring_mask := ring_entries - 1
    rqes := rqes }

/-- `rqueue::RefillQueue`: the cursor, with its locally cached `head`
(acquire-loaded at creation) and local `tail`, plus the shared state it
points to. -/
structure RefillQueue where
  head : Nat
  tail : Nat
  queue : Inner
deriving DecidableEq, Repr

/-- `Inner::borrow_shared` (and `borrow`): create a cursor whose local
`head` and `tail` are loaded from the shared words. -/
def Inner.borrow_shared (q : Inner) : RefillQueue :=
  { head := q.head, tail := q.tail, queue := q }

/-- `RefillQueue::sync`: stores the local `tail` to the shared tail word
with release ordering, then acquire-loads the shared head word.  The
source discards the loaded value (`...load(Ordering::Acquire);`), so the
locally cached `head` is left unchanged. -/
def RefillQueue.sync (s : RefillQueue) : RefillQueue :=
  { s with queue := { s.queue with tail := s.tail } }

/-- `RefillQueue::capacity`: the total number of entries in the ring. -/
def RefillQueue.capacity (s : RefillQueue) : Nat :=
  s.queue.ring_entries

/-- `RefillQueue::len`: `self.tail.wrapping_sub(self.head)` on `u32`. -/
def RefillQueue.len (s : RefillQueue) : Nat :=
  (s.tail + U32 - s.head) % U32

/-- `RefillQueue::is_empty`. -/
def RefillQueue.is_empty (s : RefillQueue) : Bool :=
  s.len == 0

/-- `RefillQueue::is_full`. -/
def RefillQueue.is_full (s : RefillQueue) : Bool :=
  s.len == s.capacity

/-- `RefillQueue::push_unchecked`: writes the entry to the shared rqe
array at index `tail & ring_mask` and advances the local `tail` by one
(wrapping `u32` addition). -/
def RefillQueue.push_unchecked (s : RefillQueue) (entry : Entry) :
    RefillQueue :=
  { s with
    queue :=
      { s.queue with
        rqes := s.queue.rqes.set (s.tail &&& s.queue.ring_mask) entry }
    tail := (s.tail + 1) % U32 }

/-- `RefillQueue::push`: fails with `PushError` if the queue is full,
otherwise `push_unchecked`.  The pair returns the updated `&mut self`
state together with the `Result`. -/
def RefillQueue.push (s : RefillQueue) (entry : Entry) :
    RefillQueue × Option PushError :=
  if !s.is_full then
    (s.push_unchecked entry, none)
  else
    (s, some PushError.mk)

/-- `RefillQueue::push_multiple`: fails with `PushError` if
`capacity() - len() < entries.len()`, otherwise pushes every entry in
order via `push_unchecked`. -/
def RefillQueue.push_multiple (s : RefillQueue) (entries : List Entry) :
    RefillQueue × Option PushError :=
  if s.capacity - s.len < entries.length then
    (s, some PushError.mk)
  else
    (entries.foldl RefillQueue.push_unchecked s, none)

/-- `impl Drop for RefillQueue`: unconditionally stores the local `tail`
to the shared tail word with release ordering. -/
def RefillQueue.dropCursor (s : RefillQueue) : RefillQueue :=
  { s with queue := { s.queue with tail := s.tail } }

/-- `Entry::buffer_offset` (also `ZcrxCqe::buffer_offset`):
`off & !IORING_ZCRX_AREA_MASK`. -/
def Entry.buffer_offset (e : Entry) : Nat :=
  e.off &&& u64not IORING_ZCRX_AREA_MASK

/-- `Entry::area_token` (also `ZcrxCqe::area_token`):
`off & IORING_ZCRX_AREA_MASK`. -/
def Entry.area_token (e : Entry) : Nat :=
  e.off &&& IORING_ZCRX_AREA_MASK

/-! ### src/lib.rs -/

/-- `ZcrxCqe`: the decoded private payload of a 32-byte completion
record. -/
structure ZcrxCqe where
  off : Nat
deriving DecidableEq, Repr

/-- `ZcrxCqe::buffer_offset`. -/
def ZcrxCqe.buffer_offset (c : ZcrxCqe) : Nat :=
  c.off &&& u64not IORING_ZCRX_AREA_MASK

/-- `ZcrxCqe::area_token`. -/
def ZcrxCqe.area_token (c : ZcrxCqe) : Nat :=
  c.off &&& IORING_ZCRX_AREA_MASK

/-- `IoUringZcrxIfq`: the registered interface queue.  The two memory
regions are modelled by their base address and length; `rq` is the
refill-ring state and `area_token` the token from the registration
handshake. -/
structure IoUringZcrxIfq where
  areaBase : Nat
  areaLen : Nat
  rq : Inner
  area_token : Nat
deriving DecidableEq, Repr

/-- `BorrowedBuffer`: a view over a sub-range of the data area, modelled
by the start address and length of the slice plus the pre-encoded
offset field. -/
structure BorrowedBuffer where
  sliceStart : Nat
  sliceLen : Nat
  off : Nat
deriving DecidableEq, Repr

/-- `IoUringZcrxIfq::get_buf`: unconditionally returns
`Some(BorrowedBuffer)` over `area_base + offset` (pointer arithmetic
wraps modulo the address space) with the given length and the offset
field pre-encoded as `offset | area_token`.  No bounds check is
performed. -/
def IoUringZcrxIfq.get_buf (ifq : IoUringZcrxIfq) (offset len : Nat) :
    Option BorrowedBuffer :=
  some
    { sliceStart := (ifq.areaBase + offset) % U64
      sliceLen := len
      off := offset ||| ifq.area_token }

/-- `BorrowedBuffer::into_refill_entry`. -/
def BorrowedBuffer.into_refill_entry (b : BorrowedBuffer) : Entry :=
  { off := b.off, len := b.sliceLen, pad := 0 }

/-- The size `register` computes for the refill ring before page
rounding: `page_size + size_of::<rqueue::Entry>() * refill_ring_entries`. -/
def refill_ring_size (page_size refill_ring_entries : Nat) : Nat :=
  page_size + rqeSize * refill_ring_entries

/-- The length `register` passes to `Mmap::new_anon` for the metadata
region: `(refill_ring_size + page_size - 1) & !(page_size - 1)`. -/
def regionAllocSize (page_size refill_ring_entries : Nat) : Nat :=
  let page_mask := u64not (page_size - 1)
  (refill_ring_size page_size refill_ring_entries + page_size - 1) &&&
    page_mask

/-- Spec-side definition of rounding up to the next page boundary: the
least multiple of `page_size` that is at least `size`. -/
def roundUpToPage (size page_size : Nat) : Nat :=
  (size + page_size - 1) / page_size * page_size

/-- Caller-side driver that pushes entries one by one with
`RefillQueue::push`, stopping at the first full-queue error. -/
def pushSeq : RefillQueue → List Entry → RefillQueue × Option PushError
  | s, [] => (s, none)
  | s, e :: es =>
    match s.push e with
    | (s', none) => pushSeq s' es
    | (s', some err) => (s', some err)

/-! ### Theorems -/

theorem U32_pos : 0 < U32 := by norm_num [U32]

theorem push_unchecked_head (s : RefillQueue) (e : Entry) :
    (s.push_unchecked e).head = s.head := rfl

theorem push_unchecked_capacity (s : RefillQueue) (e : Entry) :
    (s.push_unchecked e).capacity = s.capacity := rfl

theorem push_unchecked_tail_lt (s : RefillQueue) (e : Entry) :
    (s.push_unchecked e).tail < U32 :=
  Nat.mod_lt _ U32_pos

/-- One unchecked push increments `len()` by one modulo `2 ^ 32`,
provided the cached head is a genuine `u32` value. -/
theorem len_push_unchecked (s : RefillQueue) (e : Entry)
    (hh : s.head < U32) :
    (s.push_unchecked e).len = (s.len + 1) % U32 := by
  simp only [RefillQueue.push_unchecked, RefillQueue.len]
  simp only [U32] at hh ⊢
  omega

theorem foldl_push_unchecked_capacity (es : List Entry)
    (s : RefillQueue) :
    (es.foldl RefillQueue.push_unchecked s).capacity = s.capacity := by
  induction es generalizing s with
  | nil => rfl
  | cons e es ih => exact (ih (s.push_unchecked e)).trans rfl

theorem foldl_push_unchecked_tail (es : List Entry) (s : RefillQueue)
    (ht : s.tail < U32) :
    (es.foldl RefillQueue.push_unchecked s).tail =
      (s.tail + es.length) % U32 := by
  induction es generalizing s with
  | nil => simpa using (Nat.mod_eq_of_lt ht).symm
  | cons e es ih =>
    rw [List.foldl_cons, ih _ (push_unchecked_tail_lt s e)]
    simp only [RefillQueue.push_unchecked, List.length_cons, U32]
    omega

/-- As long as the batch fits, repeated checked pushes all succeed and
`len()` grows by exactly the number of pushes (no wrap-around, because
`len` stays at most `capacity < 2 ^ 32`). -/
theorem pushSeq_ok (es : List Entry) (s : RefillQueue)
    (hh : s.head < U32) (hcap : s.capacity < U32)
    (hfit : s.len + es.length ≤ s.capacity) :
    (pushSeq s es).2 = none ∧
    (pushSeq s es).1.len = s.len + es.length ∧
    (pushSeq s es).1.capacity = s.capacity := by
  induction es generalizing s with
  | nil => simp [pushSeq]
  | cons e es ih =>
    have hlist : es.length + 1 = (e :: es).length := rfl
    have hlt : s.len < s.capacity := by
      simp only [List.length_cons] at hfit
      omega
    have hfull : s.is_full = false := by
      simp only [RefillQueue.is_full, beq_eq_false_iff_ne, ne_eq]
      omega
    have hlen : (s.push_unchecked e).len = s.len + 1 := by
      rw [len_push_unchecked s e hh]
      exact Nat.mod_eq_of_lt (by omega)
    have hstep : pushSeq s (e :: es) = pushSeq (s.push_unchecked e) es := by
      simp [pushSeq, RefillQueue.push, hfull]
    obtain ⟨h1, h2, h3⟩ :=
      ih (s.push_unchecked e)
        (by rw [push_unchecked_head]; exact hh)
        (by rw [push_unchecked_capacity]; exact hcap)
        (by rw [hlen, push_unchecked_capacity]
            simp only [List.length_cons] at hfit
            omega)
    rw [hstep]
    refine ⟨h1, ?_, by rw [h3, push_unchecked_capacity]⟩
    rw [h2, hlen, List.length_cons]
    omega

theorem u64not_u64not (x : Nat) : u64not (u64not x) = x := by
  simp [u64not, Nat.xor_assoc]

theorem u64not_area_mask :
    u64not IORING_ZCRX_AREA_MASK = (1 <<< IORING_ZCRX_AREA_SHIFT) - 1 := by
  rw [IORING_ZCRX_AREA_MASK, u64not_u64not]

/-- The decode of the low 48 bits is reduction modulo `2 ^ 48`. -/
theorem buffer_offset_eq_mod (v : Nat) :
    ZcrxCqe.buffer_offset ⟨v⟩ = v % 2 ^ 48 := by
  rw [ZcrxCqe.buffer_offset, u64not_area_mask, IORING_ZCRX_AREA_SHIFT,
    Nat.one_shiftLeft, Nat.and_pow_two_sub_one_eq_mod]

theorem testBit_area_mask (i : Nat) :
    (IORING_ZCRX_AREA_MASK).testBit i =
      (decide (48 ≤ i) && decide (i < 64)) := by
  rw [IORING_ZCRX_AREA_MASK, IORING_ZCRX_AREA_SHIFT, u64not]
  have hU : U64 - 1 = 2 ^ 64 - 1 := rfl
  rw [hU, Nat.one_shiftLeft, Nat.testBit_xor, Nat.testBit_two_pow_sub_one,
    Nat.testBit_two_pow_sub_one]
  by_cases h1 : i < 48 <;> by_cases h2 : i < 64 <;>
    simp [h1, h2] <;> omega

theorem testBit_low_of_mod_two_pow_eq_zero (T i k : Nat)
    (h : T % 2 ^ k = 0) (hik : i < k) : T.testBit i = false := by
  have hbit := Nat.testBit_mod_two_pow T k i
  rw [h, Nat.zero_testBit, eq_comm, Bool.and_eq_false_iff] at hbit
  rcases hbit with hbit | hbit
  · simp [hik] at hbit
  · exact hbit

/-- C4: offset-encoding round trip.  For every area token `T` (a 64-bit
value whose low 48 bits are zero, as the token lives at bit 48 and
above) and every buffer offset `O < 2 ^ 48`, splitting the combined
value `O ||| T` at bit 48 with `IORING_ZCRX_AREA_MASK` recovers exactly
`O` and exactly `T`. -/
theorem offset_encoding_roundtrip (T O : Nat) (hO : O < 2 ^ 48)
    (hT : T < U64) (hTlow : T % 2 ^ 48 = 0) :
    ZcrxCqe.buffer_offset ⟨O ||| T⟩ = O ∧
    ZcrxCqe.area_token ⟨O ||| T⟩ = T := by
  have hTU : T < 2 ^ 64 := hT
  constructor
  · rw [buffer_offset_eq_mod]
    apply Nat.eq_of_testBit_eq
    intro i
    rw [Nat.testBit_mod_two_pow, Nat.testBit_or]
    by_cases h : i < 48
    · rw [testBit_low_of_mod_two_pow_eq_zero T i 48 hTlow h]
      simp [h]
    · have hO' : O.testBit i = false :=
        Nat.testBit_lt_two_pow
          (lt_of_lt_of_le hO (Nat.pow_le_pow_right (by norm_num) (by omega)))
      simp [h, hO']
  · rw [ZcrxCqe.area_token]
    apply Nat.eq_of_testBit_eq
    intro i
    rw [Nat.testBit_and, Nat.testBit_or, testBit_area_mask]
    by_cases h1 : i < 48
    · rw [testBit_low_of_mod_two_pow_eq_zero T i 48 hTlow h1]
      simp [h1]
    · by_cases h2 : i < 64
      · have hO' : O.testBit i = false :=
          Nat.testBit_lt_two_pow
            (lt_of_lt_of_le hO
              (Nat.pow_le_pow_right (by norm_num) (by omega)))
        simp [h1, h2, hO']
        omega
      · have hT' : T.testBit i = false :=
          Nat.testBit_lt_two_pow
            (lt_of_lt_of_le hTU
              (Nat.pow_le_pow_right (by norm_num) (by omega)))
        simp [h2, hT']

/-- C4 witness: the spec's own example, `T = 0x1000000000000` and
`O = 0x400`. -/
theorem offset_encoding_roundtrip_witness :
    ZcrxCqe.buffer_offset ⟨0x400 ||| 0x1000000000000⟩ = 0x400 ∧
    ZcrxCqe.area_token ⟨0x400 ||| 0x1000000000000⟩ = 0x1000000000000 :=
  offset_encoding_roundtrip 0x1000000000000 0x400 (by norm_num)
    (by norm_num [U64]) (by norm_num)

/-- C6: `get_buf(offset, length)` always succeeds — it returns `Some`
for every offset and length, with no bounds validation — and the
returned Borrowed Buffer's slice starts at `areaBase + offset` (whenever
that address does not wrap the 64-bit address space), has exactly
`length` bytes, and carries the offset field `offset ||| areaToken`. -/
theorem get_buf_always_some (ifq : IoUringZcrxIfq) (offset len : Nat) :
    (ifq.get_buf offset len).isSome = true ∧
    (ifq.areaBase + offset < U64 →
      ifq.get_buf offset len =
        some
          { sliceStart := ifq.areaBase + offset
            sliceLen := len
            off := offset ||| ifq.area_token }) := by
  refine ⟨rfl, fun h => ?_⟩
  simp [IoUringZcrxIfq.get_buf, Nat.mod_eq_of_lt h]

/-- C6 witness: a registered queue with data area at address 4096. -/
theorem get_buf_always_some_witness :
    (IoUringZcrxIfq.get_buf
        ⟨4096, 1048576, Inner.new 1 0 0 [], 0x1000000000000⟩ 8 16
      ).isSome = true ∧
    IoUringZcrxIfq.get_buf
        ⟨4096, 1048576, Inner.new 1 0 0 [], 0x1000000000000⟩ 8 16 =
      some
        { sliceStart := 4096 + 8
          sliceLen := 16
          off := 8 ||| 0x1000000000000 } := by
  have h := get_buf_always_some
    ⟨4096, 1048576, Inner.new 1 0 0 [], 0x1000000000000⟩ 8 16
  exact ⟨h.1, h.2 (by norm_num [U64])⟩

/-- Clearing the low `k` bits of a 64-bit value rounds it down to a
multiple of `2 ^ k`. -/
theorem and_u64not_low_bits (y k : Nat) (hy : y < U64) (hk : k ≤ 64) :
    y &&& u64not (2 ^ k - 1) = y / 2 ^ k * 2 ^ k := by
  have hyU : y < 2 ^ 64 := hy
  have hshift : y / 2 ^ k * 2 ^ k = (y >>> k) <<< k := by
    rw [Nat.shiftRight_eq_div_pow, Nat.shiftLeft_eq]
  rw [hshift]
  apply Nat.eq_of_testBit_eq
  intro i
  have hU : U64 - 1 = 2 ^ 64 - 1 := rfl
  rw [Nat.testBit_and, u64not, hU, Nat.testBit_xor,
    Nat.testBit_two_pow_sub_one, Nat.testBit_two_pow_sub_one,
    Nat.testBit_shiftLeft, Nat.testBit_shiftRight]
  by_cases h1 : i < k
  · have h2 : i < 64 := lt_of_lt_of_le h1 hk
    simp [h1, h2]
  · by_cases h2 : i < 64
    · have hki : k + (i - k) = i := by omega
      simp [h1, h2, hki]
      omega
    · have hyb : y.testBit i = false :=
        Nat.testBit_lt_two_pow
          (lt_of_lt_of_le hyU
            (Nat.pow_le_pow_right (by norm_num) (by omega)))
      have hyb' : y.testBit (k + (i - k)) = false := by
        have hki : k + (i - k) = i := by omega
        rw [hki, hyb]
      simp [h2, hyb, hyb']

/-- The arithmetic rounding `(size + p - 1) / p * p` is the least
multiple of `p` that is at least `size`. -/
theorem roundUpToPage_bounds (size p : Nat) (hp : 0 < p) :
    p ∣ roundUpToPage size p ∧ size ≤ roundUpToPage size p ∧
    roundUpToPage size p < size + p := by
  unfold roundUpToPage
  refine ⟨dvd_mul_left _ _, ?_, ?_⟩
  · have h4 : (size + p - 1) / p * p = p * ((size + p - 1) / p) :=
      Nat.mul_comm _ _
    rw [h4]
    have h3 := Nat.mod_add_div (size + p - 1) p
    have h1 : (size + p - 1) % p < p := Nat.mod_lt _ hp
    omega
  · have h2 := Nat.div_mul_le_self (size + p - 1) p
    omega

/-- C8: with a power-of-two page size, `register` computes the metadata
region's allocation length as
`page_size + 16 * refill_ring_entries` (16 bytes per
`io_uring_zcrx_rqe`) rounded up to the next page boundary: it equals the
arithmetic round-up, is a multiple of the page size, and is the least
such multiple at or above the unrounded size. -/
theorem region_size_page_rounded (k entries : Nat) (hk : k ≤ 64)
    (hfit : refill_ring_size (2 ^ k) entries + 2 ^ k - 1 < U64) :
    regionAllocSize (2 ^ k) entries =
      roundUpToPage (refill_ring_size (2 ^ k) entries) (2 ^ k) ∧
    2 ^ k ∣ regionAllocSize (2 ^ k) entries ∧
    refill_ring_size (2 ^ k) entries ≤ regionAllocSize (2 ^ k) entries ∧
    regionAllocSize (2 ^ k) entries <
      refill_ring_size (2 ^ k) entries + 2 ^ k := by
  have hp : 0 < 2 ^ k := Nat.two_pow_pos k
  have hmain : regionAllocSize (2 ^ k) entries =
      roundUpToPage (refill_ring_size (2 ^ k) entries) (2 ^ k) := by
    show (refill_ring_size (2 ^ k) entries + 2 ^ k - 1) &&&
        u64not (2 ^ k - 1) = _
    rw [and_u64not_low_bits _ k hfit hk]
    rfl
  obtain ⟨hd, hlo, hhi⟩ :=
    roundUpToPage_bounds (refill_ring_size (2 ^ k) entries) (2 ^ k) hp
  rw [hmain]
  exact ⟨rfl, hd, hlo, hhi⟩

/-- C8 witness: a 4096-byte page and 1024 ring entries: the unrounded
size is `4096 + 16 * 1024 = 20480`, already page aligned. -/
theorem region_size_page_rounded_witness :
    regionAllocSize (2 ^ 12) 1024 =
      roundUpToPage (refill_ring_size (2 ^ 12) 1024) (2 ^ 12) ∧
    2 ^ 12 ∣ regionAllocSize (2 ^ 12) 1024 ∧
    refill_ring_size (2 ^ 12) 1024 ≤ regionAllocSize (2 ^ 12) 1024 ∧
    regionAllocSize (2 ^ 12) 1024 <
      refill_ring_size (2 ^ 12) 1024 + 2 ^ 12 :=
  region_size_page_rounded 12 1024 (by norm_num)
    (by norm_num [refill_ring_size, rqeSize, U64])

/-- C5: starting from an empty cursor (`head == tail`, with genuine
`u32` values and `capacity < 2 ^ 32`), a sequence of N pushes with
N ≤ capacity consists only of successful pushes, leaves `len()` equal to
N, and `is_full()` holds exactly when `len() == capacity()` (that is,
exactly when N = capacity). -/
theorem pushSeq_len_eq_count (s : RefillQueue) (es : List Entry)
    (hempty : s.head = s.tail) (hh : s.head < U32)
    (hcap : s.capacity < U32) (hN : es.length ≤ s.capacity) :
    (pushSeq s es).2 = none ∧
    (pushSeq s es).1.len = es.length ∧
    ((pushSeq s es).1.is_full = true ↔
      (pushSeq s es).1.len = (pushSeq s es).1.capacity) ∧
    ((pushSeq s es).1.is_full = true ↔ es.length = s.capacity) := by
  have hlen0 : s.len = 0 := by
    simp only [RefillQueue.len, hempty]
    simp only [U32] at hh ⊢
    omega
  obtain ⟨h1, h2, h3⟩ := pushSeq_ok es s hh hcap (by omega)
  rw [hlen0] at h2
  refine ⟨h1, by omega, ?_, ?_⟩ <;>
    rw [RefillQueue.is_full, h2, h3, Nat.zero_add, beq_iff_eq] <;>
    omega

/-- C5 witness: two pushes onto an empty two-slot ring give `len = 2`
and a full ring. -/
theorem pushSeq_len_eq_count_witness :
    ((pushSeq (Inner.borrow_shared (Inner.new 2 0 0 [⟨0, 0, 0⟩, ⟨0, 0, 0⟩]))
        [⟨1, 1, 0⟩, ⟨2, 2, 0⟩]).2 = none ∧
     (pushSeq (Inner.borrow_shared (Inner.new 2 0 0 [⟨0, 0, 0⟩, ⟨0, 0, 0⟩]))
        [⟨1, 1, 0⟩, ⟨2, 2, 0⟩]).1.len = 2 ∧
     ((pushSeq (Inner.borrow_shared (Inner.new 2 0 0 [⟨0, 0, 0⟩, ⟨0, 0, 0⟩]))
        [⟨1, 1, 0⟩, ⟨2, 2, 0⟩]).1.is_full = true ↔
      (pushSeq (Inner.borrow_shared (Inner.new 2 0 0 [⟨0, 0, 0⟩, ⟨0, 0, 0⟩]))
        [⟨1, 1, 0⟩, ⟨2, 2, 0⟩]).1.len =
        (pushSeq (Inner.borrow_shared (Inner.new 2 0 0 [⟨0, 0, 0⟩, ⟨0, 0, 0⟩]))
          [⟨1, 1, 0⟩, ⟨2, 2, 0⟩]).1.capacity) ∧
     ((pushSeq (Inner.borrow_shared (Inner.new 2 0 0 [⟨0, 0, 0⟩, ⟨0, 0, 0⟩]))
        [⟨1, 1, 0⟩, ⟨2, 2, 0⟩]).1.is_full = true ↔
      (2 : Nat) = 2)) := by
  have h := pushSeq_len_eq_count
    (Inner.borrow_shared (Inner.new 2 0 0 [⟨0, 0, 0⟩, ⟨0, 0, 0⟩]))
    [⟨1, 1, 0⟩, ⟨2, 2, 0⟩] (by decide) (by decide) (by decide) (by decide)
  exact ⟨h.1, h.2.1, h.2.2.1, h.2.2.2.trans (by decide)⟩

/-- C2: `push_multiple` is all-or-nothing.  If the remaining capacity
`capacity() - len()` is smaller than the batch size, it returns the
full-queue error with the whole cursor state (local `tail`, shared entry
array) unchanged; otherwise it succeeds, its result is exactly the
in-order fold of `push_unchecked` over the batch, and the local `tail`
advances by the batch size (wrapping `u32` addition). -/
theorem push_multiple_all_or_nothing (s : RefillQueue)
    (es : List Entry) :
    (s.capacity - s.len < es.length →
      s.push_multiple es = (s, some PushError.mk)) ∧
    (es.length ≤ s.capacity - s.len →
      (s.push_multiple es).2 = none ∧
      (s.push_multiple es).1 = es.foldl RefillQueue.push_unchecked s ∧
      (s.tail < U32 →
        (s.push_multiple es).1.tail = (s.tail + es.length) % U32)) := by
  constructor
  · intro h
    simp [RefillQueue.push_multiple, h]
  · intro h
    have hnot : ¬ s.capacity - s.len < es.length := by omega
    simp only [RefillQueue.push_multiple, if_neg hnot]
    exact ⟨trivial, trivial, fun ht => foldl_push_unchecked_tail es s ht⟩

/-- C2 witness: a two-entry batch rejected by a one-slot ring, and a
two-entry batch accepted by an empty two-slot ring with the tail
advanced by two. -/
theorem push_multiple_all_or_nothing_witness :
    (RefillQueue.push_multiple
        (Inner.borrow_shared (Inner.new 1 0 0 [⟨0, 0, 0⟩]))
        [⟨1, 1, 0⟩, ⟨2, 2, 0⟩] =
      (Inner.borrow_shared (Inner.new 1 0 0 [⟨0, 0, 0⟩]),
        some PushError.mk)) ∧
    ((RefillQueue.push_multiple
        (Inner.borrow_shared (Inner.new 2 0 0 [⟨0, 0, 0⟩, ⟨0, 0, 0⟩]))
        [⟨1, 1, 0⟩, ⟨2, 2, 0⟩]).2 = none ∧
     (RefillQueue.push_multiple
        (Inner.borrow_shared (Inner.new 2 0 0 [⟨0, 0, 0⟩, ⟨0, 0, 0⟩]))
        [⟨1, 1, 0⟩, ⟨2, 2, 0⟩]).1.tail = (0 + 2) % U32) := by
  refine ⟨(push_multiple_all_or_nothing _ _).1 (by decide), ?_, ?_⟩
  · exact ((push_multiple_all_or_nothing _ _).2 (by decide)).1
  · exact (((push_multiple_all_or_nothing
      (Inner.borrow_shared (Inner.new 2 0 0 [⟨0, 0, 0⟩, ⟨0, 0, 0⟩]))
      [⟨1, 1, 0⟩, ⟨2, 2, 0⟩]).2 (by decide)).2.2 (by decide))

/-- C7: for every power-of-two entry count, a cursor borrowed from the
ring state built by `Inner::new` (whose `ring_entries` is the count
returned by the registration handshake) reports `capacity()` equal to
that count, and `capacity()` is unchanged by `push`, `push_multiple` and
`sync`. -/
theorem capacity_matches_registration (ring_entries k hd tl : Nat)
    (rqes : List Entry) (hpow : ring_entries = 2 ^ k) :
    ((Inner.new ring_entries hd tl rqes).borrow_shared).capacity =
      ring_entries ∧
    ∀ (s : RefillQueue) (e : Entry) (es : List Entry),
      (s.push e).1.capacity = s.capacity ∧
      (s.push_multiple es).1.capacity = s.capacity ∧
      s.sync.capacity = s.capacity := by
  refine ⟨rfl, fun s e es => ⟨?_, ?_, rfl⟩⟩
  · rw [RefillQueue.push]
    split
    · exact push_unchecked_capacity s e
    · rfl
  · rw [RefillQueue.push_multiple]
    split
    · rfl
    · exact foldl_push_unchecked_capacity es s

/-- C7 witness: a 4-entry ring (`4 = 2 ^ 2`). -/
theorem capacity_matches_registration_witness :
    ((Inner.new 4 0 0 []).borrow_shared).capacity = 4 ∧
    ∀ (s : RefillQueue) (e : Entry) (es : List Entry),
      (s.push e).1.capacity = s.capacity ∧
      (s.push_multiple es).1.capacity = s.capacity ∧
      s.sync.capacity = s.capacity :=
  capacity_matches_registration 4 2 0 0 [] (by norm_num)

/-- C1: pushing onto a full ring (`len() == capacity()`) returns the
full-queue error and leaves the whole cursor state unchanged (same local
`tail`, same `len()`, nothing written to the shared entry array); when
the ring is not full, `push` succeeds, writes the entry at index
`tail & ring_mask` of the shared entry array and advances the local
`tail` by exactly one (wrapping `u32` increment). -/
theorem push_full_error_else_writes (s : RefillQueue) (e : Entry) :
    (s.len = s.capacity → s.push e = (s, some PushError.mk)) ∧
    (s.len ≠ s.capacity →
      (s.push e).2 = none ∧
      (s.push e).1.tail = (s.tail + 1) % U32 ∧
      (s.push e).1.queue.rqes =
        s.queue.rqes.set (s.tail &&& s.queue.ring_mask) e) := by
  constructor
  · intro h
    simp [RefillQueue.push, RefillQueue.is_full, h]
  · intro h
    have hfull : s.is_full = false := by
      simp [RefillQueue.is_full, h]
    simp [RefillQueue.push, hfull, RefillQueue.push_unchecked]

/-- C1 witness: concrete instances of both cases of
`push_full_error_else_writes` (a full one-slot ring, then an empty
one-slot ring). -/
theorem push_full_error_else_writes_witness :
    (RefillQueue.push
        (Inner.borrow_shared (Inner.new 1 0 1 [⟨0, 0, 0⟩])) ⟨7, 9, 0⟩ =
      (Inner.borrow_shared (Inner.new 1 0 1 [⟨0, 0, 0⟩]),
        some PushError.mk)) ∧
    (RefillQueue.push
        (Inner.borrow_shared (Inner.new 1 0 0 [⟨0, 0, 0⟩])) ⟨7, 9, 0⟩).2 =
      none := by
  exact ⟨(push_full_error_else_writes _ ⟨7, 9, 0⟩).1 (by decide),
    ((push_full_error_else_writes _ ⟨7, 9, 0⟩).2 (by decide)).1⟩

/-- C9: the `Drop` implementation of the cursor unconditionally stores
the current local `tail` to the shared tail word, and modifies nothing
else: the shared head word, the shared entry array, the ring geometry
and the cursor's local fields are all untouched. -/
theorem dropCursor_publishes_tail_only (s : RefillQueue) :
    (s.dropCursor).queue.tail = s.tail ∧
    (s.dropCursor).queue.head = s.queue.head ∧
    (s.dropCursor).queue.rqes = s.queue.rqes ∧
    (s.dropCursor).queue.ring_entries = s.queue.ring_entries ∧
    (s.dropCursor).queue.ring_mask = s.queue.ring_mask ∧
    (s.dropCursor).head = s.head ∧
    (s.dropCursor).tail = s.tail := by
  simp [RefillQueue.dropCursor]

/-- C10: for every cursor state with `len() <= capacity()`, pushing an
empty batch with `push_multiple` succeeds (no full-queue error) and
leaves the state — in particular the local `tail` and the shared entry
array — completely unchanged, even when the ring is full. -/
theorem push_multiple_empty_succeeds (s : RefillQueue)
    (h : s.len ≤ s.capacity) :
    s.push_multiple [] = (s, none) := by
  simp [RefillQueue.push_multiple]

/-- C10 witness: empty batch on a completely full one-slot ring. -/
theorem push_multiple_empty_succeeds_witness :
    RefillQueue.len (Inner.borrow_shared (Inner.new 1 0 1 [⟨0, 0, 0⟩])) ≤
        RefillQueue.capacity
          (Inner.borrow_shared (Inner.new 1 0 1 [⟨0, 0, 0⟩])) ∧
      RefillQueue.push_multiple
          (Inner.borrow_shared (Inner.new 1 0 1 [⟨0, 0, 0⟩])) [] =
        (Inner.borrow_shared (Inner.new 1 0 1 [⟨0, 0, 0⟩]), none) :=
  ⟨by decide,
    push_multiple_empty_succeeds
      (Inner.borrow_shared (Inner.new 1 0 1 [⟨0, 0, 0⟩])) (by decide)⟩

/-- C3 (code-bug demonstration): `sync()` stores the local `tail` but
discards the value it acquire-loads from the shared head word, so the
locally cached `head` is NOT refreshed.  Concretely: a one-slot ring
whose cursor was created with `head = 0, tail = 1` while the kernel has
since advanced the shared head to `1`; after `sync()` the cached head is
still `0`, differs from the shared head, the ring is still reported
full, and the next `push` still fails — contradicting the claim that
after `sync()` the cached head equals the shared head and pushes succeed
again. -/
theorem sync_does_not_refresh_cached_head :
    (RefillQueue.sync
        { head := 0, tail := 1, queue := Inner.new 1 1 1 [⟨0, 0, 0⟩] }).head
        = 0 ∧
    (RefillQueue.sync
        { head := 0, tail := 1, queue := Inner.new 1 1 1 [⟨0, 0, 0⟩] }
      ).queue.head = 1 ∧
    (RefillQueue.sync
        { head := 0, tail := 1, queue := Inner.new 1 1 1 [⟨0, 0, 0⟩] }
      ).is_full = true ∧
    ((RefillQueue.sync
        { head := 0, tail := 1, queue := Inner.new 1 1 1 [⟨0, 0, 0⟩] }
      ).push ⟨0, 0, 0⟩).2 = some PushError.mk := by
  decide

end Zcrx
